import Mathlib

/-!
Verification of the MinSQL query/ingestion engine (minio/minsql, package
`server`) against its natural-language specification.  The Go sources under
`server/` are shallowly embedded below: pure helpers become Lean functions,
the handler control flow becomes functions into explicit outcome types, and
the reader/writer-lock protected config cell becomes a small labelled
transition system.  Strings are modelled as `List Char` where character-level
processing matters.
-/

namespace MinSQL

/-- Character lists standing for Go strings in character-level processing. -/
abbrev Chars := List Char

/-! ## Table-name validation

`validTable = regexp.MustCompile("^[a-zA-Z][a-zA-Z0-9-_]+$")`
(api-handlers.go:174-176).  The anchored regex accepts exactly: one ASCII
letter followed by one or more characters from `[a-zA-Z0-9-_]`. -/

/-- One character of the leading class `[a-zA-Z]`. -/
def isAsciiAlpha (c : Char) : Bool :=
  (('a' ≤ c) && (c ≤ 'z')) || (('A' ≤ c) && (c ≤ 'Z'))

/-- One character of the tail class `[a-zA-Z0-9-_]`. -/
def isTableChar (c : Char) : Bool :=
  isAsciiAlpha c || (('0' ≤ c) && (c ≤ '9')) || (c == '-') || (c == '_')

/-- Full-string match of `^[a-zA-Z][a-zA-Z0-9-_]+$` on a character list. -/
def validTableChars : Chars → Bool
  | [] => false
  | c :: rest => isAsciiAlpha c && (!rest.isEmpty) && rest.all isTableChar

/-- `validTable.MatchString` on a Go string. -/
def validTableMatch (s : String) : Bool :=
  validTableChars s.data

/-! ## The configuration data model (config.go:36-68)

Go maps are embedded as association lists looked up with `List.lookup`;
the `Auth` map takes no part in any claim and is omitted from the record. -/

/-- `dataStoreInfo` (config.go:57-63).  The Go field `Prefix` is called
`pfx` here. -/
structure DataStoreInfo where
  endpoint : String
  accessKey : String
  secretKey : String
  bucket : String
  pfx : String
deriving DecidableEq

/-- `tableInfo` (config.go:65-68). -/
structure TableInfo where
  datastores : List String
  outputRecordDelimiter : String
deriving DecidableEq

/-- `minSQLConfig` (config.go:36-41), with the two maps the engine reads. -/
structure MinSQLConfig where
  version : String
  datastores : List (String × DataStoreInfo)
  tables : List (String × TableInfo)
deriving DecidableEq

/-- The empty config built by `initMinSQLConfig` (config.go:70-76). -/
def initConfig : MinSQLConfig :=
  { version := "1", datastores := [], tables := [] }

/-- `readMinSQLConfig` (config.go:94-116) after the object fetch: the TOML
decode outcome enters as `decoded` (fetch and decode are external I/O), and
the function then validates every table name against the grammar, failing on
the first invalid one. -/
def readMinSQLConfig (decoded : Except String MinSQLConfig) :
    Except String MinSQLConfig :=
  match decoded with
  | .error e => .error e
  | .ok cfg =>
    match cfg.tables.find? (fun kv => !validTableMatch kv.1) with
    | some kv => .error (kv.1 ++ " table name invalid, should have alphanumeric characters such as [helloWorld0, hello_World0, ...]")
    | none => .ok cfg

/-! ## The config watcher (api-handlers.go:364-393) -/

/-- The watcher's observable state: the shared `a.config` pointer (`none`
models Go `nil`) and whether the goroutine has returned. -/
structure WatcherState where
  config : Option MinSQLConfig
  stopped : Bool
deriving DecidableEq

/-- The event classes distinguished by the watcher loop. -/
inductive BucketEvent
  | objectCreated
  | objectRemoved
  | otherEvent
deriving DecidableEq

/-- One iteration of the notification-record loop (api-handlers.go:379-391).
The Go multi-assignment `a.config, err = readMinSQLConfig(a.configClnt)`
stores the returned config pointer unconditionally — on error the returned
pointer is `nil` — and only afterwards checks `err`, logging and returning
from the watcher.  `readResult` is the outcome of re-reading the persisted
config and `initResult` the outcome of re-initialising it. -/
def processNotification (st : WatcherState) (ev : BucketEvent)
    (readResult initResult : Except String MinSQLConfig) : WatcherState :=
  if st.stopped then st
  else
    match ev with
    | .objectCreated =>
      match readResult with
      | .ok cfg => { config := some cfg, stopped := false }
      | .error _ => { config := none, stopped := true }
    | .objectRemoved =>
      match initResult with
      | .ok cfg => { config := some cfg, stopped := false }
      | .error _ => { config := none, stopped := true }
    | .otherEvent => st

/-! ## Schema inference for ingestion (api-handlers.go:93-144) -/

/-- The dynamic type of a decoded JSON field value as seen by the Go type
switch in `toParquetType`: one constructor per switch arm, plus `vother`
covering every runtime type the switch does not list (its `String` argument
names that Go type). -/
inductive GoValue
  | vstring
  | vfloat32
  | vfloat64
  | vint32
  | vint64
  | vbool
  | vbytes
  | vlist
  | vmap
  | vother (goType : String)
deriving DecidableEq

/-- `toParquetType` (api-handlers.go:93-115). -/
def toParquetType : GoValue → String
  | .vstring => "UTF8, encoding=PLAIN_DICTIONARY"
  | .vfloat32 => "FLOAT"
  | .vfloat64 => "DOUBLE"
  | .vint32 => "INT32"
  | .vint64 => "INT64"
  | .vbool => "BOOLEAN"
  | .vbytes => "BYTE_ARRAY"
  | .vlist => "LIST"
  | .vmap => "MAP"
  | .vother _ => "UNKNOWN"

/-- The tag string `fmt.Sprintf("name=%s, type=%s", kv.Key, vtype)` built for
one schema column (api-handlers.go:135-136). -/
def fieldTag (key vtype : String) : String :=
  "name=" ++ key ++ ", type=" ++ vtype

/-- The `Fields` list built by the loop in `inferSchema`
(api-handlers.go:128-141): one tag per field whose type switch result is not
`"UNKNOWN"`, in input order. -/
def inferSchemaFields : List (String × GoValue) → List String
  | [] => []
  | (k, v) :: rest =>
    if toParquetType v ≠ "UNKNOWN" then
      fieldTag k (toParquetType v) :: inferSchemaFields rest
    else inferSchemaFields rest

/-- The JSON document `inferSchema` marshals (api-handlers.go:117-144): a
top-level tag `name=<table>` plus the field tags. -/
structure ParquetSchema where
  tag : String
  fields : List String
deriving DecidableEq

/-- `inferSchema` (api-handlers.go:117-144).  `json.Marshal` of the assembled
key-order-preserving document cannot fail, so the `Except` (mirroring the Go
`([]byte, error)` signature) is always `ok`. -/
def inferSchema (kvs : List (String × GoValue)) (table : String) :
    Except String ParquetSchema :=
  .ok { tag := "name=" ++ table, fields := inferSchemaFields kvs }

/-! ## Table extraction from the SQL statement (sql.go:10-22)

`GetTableName` delegates to `sql.SQLParser` from the
`github.com/minio/minio/pkg/s3select/sql` dependency and returns
`selectAST.From.Table.String()`. -/

/-- Whitespace for token separation. -/
def isWS (c : Char) : Bool :=
  (c == ' ') || (c == '\t') || (c == '\n') || (c == '\r')

/-- Splits a character list into maximal whitespace-free words; `acc` holds
the current word reversed. -/
def wordsAux : Chars → Chars → List Chars
  | [], acc => if acc.isEmpty then [] else [acc.reverse]
  | c :: rest, acc =>
    if isWS c then
      if acc.isEmpty then wordsAux rest [] else acc.reverse :: wordsAux rest []
    else wordsAux rest (c :: acc)

/-- The whitespace-separated words of a statement. -/
def words (s : Chars) : List Chars := wordsAux s []

/-- Case folding of one token, for case-insensitive keyword matching. -/
def lowerTok (t : Chars) : Chars := t.map Char.toLower

/-- The `SELECT` keyword. -/
def selectKW : Chars := "select".data

/-- The `FROM` keyword. -/
def fromKW : Chars := "from".data

/-- Modelled from the spec: the tail of the s3select single-table `SELECT`
grammar — scanning for the `FROM` keyword (case-insensitive) and returning
the identifier token immediately after it; the grammar itself lives in the
`github.com/minio/minio/pkg/s3select/sql` dependency, outside this
repository's sources. -/
def tableAfterFrom : List Chars → Except String String
  | [] => .error "parse error: no from clause in select statement"
  | t :: rest =>
    if lowerTok t = fromKW then
      match rest with
      | [] => .error "parse error: missing table name after from"
      | tbl :: _ => .ok (String.mk tbl)
    else tableAfterFrom rest

/-- Modelled from the spec: the s3select single-table `SELECT` statement
shape — the `SELECT` keyword (case-insensitive), a nonempty projection, then
a `FROM` clause naming one table; anything else is a parse error.  The real
grammar is in the `github.com/minio/minio/pkg/s3select/sql` dependency,
outside this repository's sources. -/
def extractTableFromTokens : List Chars → Except String String
  | [] => .error "parse error: empty select statement"
  | sel :: rest =>
    if lowerTok sel ≠ selectKW then .error "parse error: expected select"
    else
      match rest with
      | [] => .error "parse error: empty projection"
      | p :: _ =>
        if lowerTok p = fromKW then .error "parse error: empty projection"
        else tableAfterFrom rest

/-- `GetTableName` (sql.go:10-22): the explicit empty-statement check from
the Go source, then the parse (spec-modelled, see `extractTableFromTokens`). -/
def getTableName (s : Chars) : Except String String :=
  if s.isEmpty then .error "sql statement cannot be empty"
  else extractTableFromTokens (words s)

/-! ## The pushdown expression rewrite (api-handlers.go:456)

`strings.Replace(sql, fmt.Sprintf("from %s", table), "from s3object", -1)`:
every non-overlapping literal occurrence of `"from " + table`, scanned left
to right, is replaced. -/

/-- Left-to-right non-overlapping replacement of `pat` by `rep`, fuelled (the
fuel is the input length, which always suffices).  The callers' pattern
`"from " ++ table` is never empty; for an empty `pat` this model leaves the
input unchanged rather than reproducing Go's boundary-insertion case. -/
def replaceAllFuel (pat rep : Chars) : Nat → Chars → Chars
  | _, [] => []
  | 0, s => s
  | fuel + 1, c :: rest =>
    if (!pat.isEmpty) && pat.isPrefixOf (c :: rest) then
      rep ++ replaceAllFuel pat rep fuel (List.drop (pat.length - 1) rest)
    else c :: replaceAllFuel pat rep fuel rest

/-- `strings.Replace(s, pat, rep, -1)` for nonempty `pat`. -/
def replaceAll (pat rep s : Chars) : Chars :=
  replaceAllFuel pat rep s.length s

/-- `strings.Contains`: some position of `s` starts an occurrence of `pat`. -/
def containsSub (pat : Chars) : Chars → Bool
  | [] => pat.isEmpty
  | c :: rest => pat.isPrefixOf (c :: rest) || containsSub pat rest

/-- The `Expression` field of the select options built by `SearchHandler`
(api-handlers.go:456). -/
def searchExpression (sql : Chars) (table : String) : Chars :=
  replaceAll ("from ".data ++ table.data) "from s3object".data sql

/-! ## Datastore resolution (api-handlers.go:146-172, 395-399) -/

/-- `dataStore` (api-handlers.go:395-399): the per-datastore work unit.  The
`client` handle is represented by the endpoint it was built from; the Go
field `prefix` is called `pfx` here. -/
structure DataStore where
  endpoint : String
  bucket : String
  pfx : String
deriving DecidableEq

/-- `tblInfoToDataStores` (api-handlers.go:146-172): each name in
`tinfo.Datastores`, in order, is resolved in `config.Datastores`; a missing
name aborts with the `datastore not found` error.  Endpoint parsing and
client construction are external and modelled as always succeeding. -/
def resolveDatastores (cfg : MinSQLConfig) (table : String) :
    List String → Except String (List DataStore)
  | [] => .ok []
  | d :: rest =>
    match cfg.datastores.lookup d with
    | none => .error ("datastore " ++ d ++ " not found for the table " ++ table)
    | some sinfo =>
      match resolveDatastores cfg table rest with
      | .error e => .error e
      | .ok tl =>
        .ok ({ endpoint := sinfo.endpoint, bucket := sinfo.bucket,
               pfx := sinfo.pfx } :: tl)

/-! ## The ingestion front end (api-handlers.go:248-265) -/

/-- The outcome of `LogIngestHandler`'s table resolution: the two early
`http.Error` rejections, or continuation into the body-decoding loop with
the resolved table info. -/
inductive IngestOutcome
  | badRequestInvalidName
  | notFound
  | proceed (tinfo : TableInfo)
deriving DecidableEq

/-- The HTTP status each `IngestOutcome` stands for; `proceed` is the path
on which the handler can finish with 200. -/
def ingestStatus : IngestOutcome → Nat
  | .badRequestInvalidName => 400
  | .notFound => 404
  | .proceed _ => 200

/-- `LogIngestHandler`'s front end (api-handlers.go:248-265): the
`validTable` check (400), then the `a.config.Tables[table]` lookup (404 on
a miss). -/
def logIngestCheck (cfg : MinSQLConfig) (table : String) : IngestOutcome :=
  if !validTableMatch table then .badRequestInvalidName
  else
    match cfg.tables.lookup table with
    | none => .notFound
    | some tinfo => .proceed tinfo

/-! ## The search handler front end (api-handlers.go:419-509) -/

/-- `maxFormSize = 10 << 20` (api-handlers.go:423). -/
def maxFormSize : Nat := 10485760

/-- The outcome of `SearchHandler` up to the start of the fan-out: a 400
rejection, a 404 for an unknown table, or the fan-out itself carrying the
pushdown expression and the datastores in the order the listing loop
(api-handlers.go:495) iterates them. -/
inductive SearchOutcome
  | badRequest (msg : String)
  | notFound (msg : String)
  | execute (expr : Chars) (dsts : List DataStore)
deriving DecidableEq

/-- `SearchHandler` (api-handlers.go:419-509): body-size check, table
extraction, `validTable` check, table lookup (404 on a miss), datastore
resolution (400 on failure), then the fan-out with the rewritten expression;
the body is handed to `GetTableName` whole, and the datastore list is used
exactly as resolved. -/
def searchHandler (cfg : MinSQLConfig) (body : Chars) : SearchOutcome :=
  if body.length > maxFormSize then .badRequest "http: POST too large"
  else
    match getTableName body with
    | .error e => .badRequest e
    | .ok table =>
      if !validTableMatch table then
        .badRequest (table ++ " table name invalid")
      else
        match cfg.tables.lookup table with
        | none => .notFound (table ++ " table not found")
        | some tinfo =>
          match resolveDatastores cfg table tinfo.datastores with
          | .error e => .badRequest e
          | .ok dsts => .execute (searchExpression body table) dsts

/-- The pushdown expressions the handler executes for one request body: the
fan-out runs at most once, over the single whole-body statement. -/
def searchStatements (cfg : MinSQLConfig) (body : Chars) : List Chars :=
  match searchHandler cfg body with
  | .execute expr _ => [expr]
  | _ => []

/-- Splitting a request body on `;`, as the spec's semicolon-separated
statement list would require (claim-side definition for comparison; the
handler itself never splits). -/
def semicolonSplit (s : Chars) : List Chars := s.splitOn ';'

/-! ## The shuffle (api-handlers.go:178-194)

The Go loop walks `n` from `len(dsts)` down to `1`, swapping index `n-1`
with `rand.Intn(n)`.  The random source is abstracted as a function `r`;
`r n % n` ranges over exactly the values `rand.Intn(n)` can produce, so the
model covers every execution of the Go code. -/

/-- One in-place swap of list positions `i` and `j` (no-op out of range,
which the shuffle loop never hits). -/
def swapList (l : List α) (i j : Nat) : List α :=
  match l[i]?, l[j]? with
  | some a, some b => (l.set i b).set j a
  | _, _ => l

/-- The shuffle loop with `n` running from `n₀` down to `1`. -/
def shuffleSteps (r : Nat → Nat) (l : List α) : Nat → List α
  | 0 => l
  | m + 1 => shuffleSteps r (swapList l m (r (m + 1) % (m + 1))) m

/-- `shuffle` (api-handlers.go:178-194) under random source `r`. -/
def shuffle (r : Nat → Nat) (l : List α) : List α :=
  shuffleSteps r l l.length

/-! ## The shared config cell under `sync.RWMutex` (api-handlers.go:56-60)

Readers (`ListTablesHandler`, `LogIngestHandler`, `SearchHandler`,
`tblInfoToDataStores`) access `a.config` only between `RLock`/`RUnlock`;
the watcher replaces the whole pointer between `Lock`/`Unlock`
(api-handlers.go:380-386). The concurrency is embedded as a labelled
transition system over the shared state: an event is one atomic action of
some thread, a trace is an arbitrary interleaving, and `lockStep` refuses
events that violate the RWMutex protocol. -/

/-- The shared state: the config cell and the lock bookkeeping
(`readerIds` are the threads currently holding the read lock). -/
structure LockState where
  cell : MinSQLConfig
  writerHeld : Bool
  readerIds : List Nat
deriving DecidableEq

/-- Atomic actions against the shared cell.  A read event records the value
the thread observed; `lockStep` only admits it when that value is the
current field content. -/
inductive LockEvent
  | rlock (tid : Nat)
  | runlock (tid : Nat)
  | readTables (tid : Nat) (v : List (String × TableInfo))
  | readDatastores (tid : Nat) (v : List (String × DataStoreInfo))
  | wlock
  | swapConfig (cfg : MinSQLConfig)
  | wunlock
deriving DecidableEq

/-- One step of the RWMutex-governed system: read locks are granted only
while no writer holds the lock, the write lock only when no reader does,
field reads require the read lock, and the wholesale pointer swap requires
the write lock. -/
def lockStep (s : LockState) : LockEvent → Option LockState
  | .rlock tid =>
    if s.writerHeld = true ∨ tid ∈ s.readerIds then none
    else some { s with readerIds := tid :: s.readerIds }
  | .runlock tid =>
    if tid ∈ s.readerIds then some { s with readerIds := s.readerIds.erase tid }
    else none
  | .readTables tid v =>
    if tid ∈ s.readerIds ∧ v = s.cell.tables then some s else none
  | .readDatastores tid v =>
    if tid ∈ s.readerIds ∧ v = s.cell.datastores then some s else none
  | .wlock =>
    if s.writerHeld = true ∨ s.readerIds ≠ [] then none
    else some { s with writerHeld := true }
  | .swapConfig cfg =>
    if s.writerHeld = true then some { s with cell := cfg } else none
  | .wunlock =>
    if s.writerHeld = true then some { s with writerHeld := false } else none

/-- Running a trace of events from a state; `none` when some event violates
the protocol. -/
def lockRun (s : LockState) : List LockEvent → Option LockState
  | [] => some s
  | e :: evs =>
    match lockStep s e with
    | none => none
    | some s₂ => lockRun s₂ evs

/-! ## Helper lemmas -/

/-- Writing back the element already at position `i` changes nothing. -/
theorem set_self_eq (l : List α) (i : Nat) (h : i < l.length) :
    l.set i l[i] = l := by
  apply List.ext_getElem
  · simp
  · intro n h1 h2
    simp only [List.getElem_set]
    split
    · rename_i he; subst he; rfl
    · rfl

/-- Moving the head value down to position `j` while its occupant moves to
the head is a permutation. -/
theorem swapHead_perm (l : List α) (j : Nat) (a b : α) (hb : l[j]? = some b) :
    (b :: l.set j a).Perm (a :: l) := by
  induction l generalizing j with
  | nil => simp at hb
  | cons c t ih =>
    cases j with
    | zero =>
      simp only [List.getElem?_cons_zero, Option.some.injEq] at hb
      subst hb
      exact List.Perm.swap a c t
    | succ k =>
      simp only [List.getElem?_cons_succ] at hb
      have step := ih k hb
      have h1 : (b :: (c :: t).set (k + 1) a) = b :: c :: t.set k a := rfl
      rw [h1]
      exact (List.Perm.swap c b (t.set k a)).trans
        ((List.Perm.cons c step).trans (List.Perm.swap a c t))

/-- Exchanging the values at two in-range positions is a permutation. -/
theorem set_set_swap_perm (l : List α) (i j : Nat) (hi : i < l.length)
    (hj : j < l.length) : ((l.set i l[j]).set j l[i]).Perm l := by
  induction l generalizing i j with
  | nil => simp at hi
  | cons c t ih =>
    cases i with
    | zero =>
      cases j with
      | zero =>
        simp only [List.getElem_cons_zero, List.set_cons_zero]
        exact List.Perm.refl _
      | succ k =>
        have hk : k < t.length := by simpa using hj
        simp only [List.getElem_cons_succ, List.getElem_cons_zero,
          List.set_cons_zero, List.set_cons_succ]
        exact swapHead_perm t k c t[k] (List.getElem?_eq_some.mpr ⟨hk, rfl⟩)
    | succ m =>
      cases j with
      | zero =>
        have hm : m < t.length := by simpa using hi
        simp only [List.getElem_cons_succ, List.getElem_cons_zero,
          List.set_cons_zero, List.set_cons_succ]
        exact swapHead_perm t m c t[m] (List.getElem?_eq_some.mpr ⟨hm, rfl⟩)
      | succ k =>
        have hm : m < t.length := by simpa using hi
        have hk : k < t.length := by simpa using hj
        simp only [List.getElem_cons_succ, List.set_cons_succ]
        exact List.Perm.cons c (ih m k hm hk)

/-- The two-position exchange done by each shuffle iteration is a
permutation of the list, for any indices. -/
theorem swapList_perm (l : List α) (i j : Nat) : (swapList l i j).Perm l := by
  unfold swapList
  cases hi : l[i]? with
  | none => exact List.Perm.refl l
  | some a =>
    cases hj : l[j]? with
    | none => exact List.Perm.refl l
    | some b =>
      obtain ⟨hli, hai⟩ := List.getElem?_eq_some.mp hi
      obtain ⟨hlj, haj⟩ := List.getElem?_eq_some.mp hj
      subst hai haj
      exact set_set_swap_perm l i j hli hlj

/-- Every run of the shuffle loop permutes its input. -/
theorem shuffleSteps_perm (r : Nat → Nat) (n : Nat) (l : List α) :
    (shuffleSteps r l n).Perm l := by
  induction n generalizing l with
  | zero => exact List.Perm.refl l
  | succ m ih =>
    exact (ih (swapList l m (r (m + 1) % (m + 1)))).trans
      (swapList_perm l m (r (m + 1) % (m + 1)))

/-- Scanning for `FROM` skips every token that does not case-fold to the
keyword and returns the token right after the first one that does. -/
theorem tableAfterFrom_append (proj : List Chars) (ftok tbl : Chars)
    (rest : List Chars) (hproj : ∀ t ∈ proj, lowerTok t ≠ fromKW)
    (hf : lowerTok ftok = fromKW) :
    tableAfterFrom (proj ++ ftok :: tbl :: rest) = .ok (String.mk tbl) := by
  induction proj with
  | nil =>
    simp only [List.nil_append, tableAfterFrom, hf, if_pos]
  | cons p ps ih =>
    have hp : lowerTok p ≠ fromKW := hproj p (List.mem_cons_self p ps)
    have hps : ∀ t ∈ ps, lowerTok t ≠ fromKW := fun t ht =>
      hproj t (List.mem_cons_of_mem p ht)
    simp only [List.cons_append, tableAfterFrom, hp, if_neg]
    exact ih hps

/-- Inversion of the `FROM` scan: a successful result can only arise from a
token list of the shape `proj ++ ftok :: tbl :: rest` where no token of
`proj` case-folds to the `FROM` keyword, `ftok` does, and the result is the
token right after it. -/
theorem tableAfterFrom_ok_inv (ts : List Chars) (tblStr : String)
    (h : tableAfterFrom ts = .ok tblStr) :
    ∃ proj ftok tbl rest, ts = proj ++ ftok :: tbl :: rest ∧
      (∀ t ∈ proj, lowerTok t ≠ fromKW) ∧ lowerTok ftok = fromKW ∧
      tblStr = String.mk tbl := by
  induction ts with
  | nil => exact absurd h (by simp [tableAfterFrom])
  | cons t rest0 ih =>
    simp only [tableAfterFrom] at h
    split at h
    · rename_i hf
      cases rest0 with
      | nil => exact absurd h (by simp)
      | cons tbl rs =>
        exact ⟨[], t, tbl, rs, rfl, by simp, hf, (Except.ok.inj h).symm⟩
    · rename_i hf
      obtain ⟨proj, ftok, tbl, rest, hts, hproj, hftok, htbl⟩ := ih h
      refine ⟨t :: proj, ftok, tbl, rest, by rw [List.cons_append, hts],
        ?_, hftok, htbl⟩
      intro t2 ht2
      rcases List.mem_cons.mp ht2 with rfl | ht2
      · exact hf
      · exact hproj t2 ht2

/-- Inversion of the modelled statement parse: a table is extracted only
from a token list of the single-table `SELECT` shape — the `SELECT` keyword,
a nonempty projection free of the `FROM` keyword, the `FROM` keyword, and
the table token; every other token list yields an error. -/
theorem extractTable_ok_inv (ts : List Chars) (tblStr : String)
    (h : extractTableFromTokens ts = .ok tblStr) :
    ∃ sel proj ftok tbl rest, ts = sel :: (proj ++ ftok :: tbl :: rest) ∧
      lowerTok sel = selectKW ∧ proj ≠ [] ∧
      (∀ t ∈ proj, lowerTok t ≠ fromKW) ∧ lowerTok ftok = fromKW ∧
      tblStr = String.mk tbl := by
  cases ts with
  | nil => exact absurd h (by simp [extractTableFromTokens])
  | cons sel rest0 =>
    simp only [extractTableFromTokens] at h
    split at h
    · exact absurd h (by simp)
    · rename_i hsel
      split at h
      · exact absurd h (by simp)
      · rename_i x xs
        split at h
        · exact absurd h (by simp)
        · rename_i hp
          obtain ⟨proj, ftok, tbl, rest, hts, hproj, hftok, htbl⟩ :=
            tableAfterFrom_ok_inv (x :: xs) tblStr h
          have hproj_ne : proj ≠ [] := by
            intro hnil
            subst hnil
            obtain ⟨hpe, -⟩ := List.cons.inj (by simpa using hts)
            exact hp (by rw [hpe]; exact hftok)
          exact ⟨sel, proj, ftok, tbl, rest, by rw [hts],
            not_ne_iff.mp hsel, hproj_ne, hproj, hftok, htbl⟩

/-- A statement with no occurrence of the pattern passes through the
replacement loop unchanged (for any sufficient fuel). -/
theorem replaceAllFuel_id (pat rep : Chars) (fuel : Nat) (s : Chars)
    (hfuel : s.length ≤ fuel) (hno : containsSub pat s = false) :
    replaceAllFuel pat rep fuel s = s := by
  induction fuel generalizing s with
  | zero =>
    cases s with
    | nil => rfl
    | cons c rest => simp at hfuel
  | succ m ih =>
    cases s with
    | nil => rfl
    | cons c rest =>
      simp only [containsSub, Bool.or_eq_false_iff] at hno
      obtain ⟨h1, h2⟩ := hno
      have hrec := ih rest (by simpa using Nat.le_of_succ_le_succ hfuel) h2
      simp [replaceAllFuel, h1, hrec]

/-- `strings.Replace` leaves a statement unchanged when the pattern does not
occur in it. -/
theorem replaceAll_id (pat rep s : Chars) (hno : containsSub pat s = false) :
    replaceAll pat rep s = s :=
  replaceAllFuel_id pat rep s.length s (Nat.le_refl _) hno

/-- While some thread holds the read lock and does not release it, a single
admissible event cannot change the config cell, cannot raise the writer
flag, keeps that thread's read lock, and any read event observes the current
cell contents. -/
theorem lockStep_reader_stable (s s₂ : LockState) (e : LockEvent) (tid : Nat)
    (hstep : lockStep s e = some s₂) (hw : s.writerHeld = false)
    (hr : tid ∈ s.readerIds) (hne : e ≠ .runlock tid) :
    s₂.cell = s.cell ∧ s₂.writerHeld = false ∧ tid ∈ s₂.readerIds ∧
    (∀ t2 v, e = .readTables t2 v → v = s.cell.tables) ∧
    (∀ t2 v, e = .readDatastores t2 v → v = s.cell.datastores) := by
  cases e with
  | rlock t =>
    simp only [lockStep] at hstep
    split at hstep
    · exact absurd hstep (by simp)
    · obtain rfl := Option.some.injEq .. ▸ hstep.symm
      exact ⟨rfl, hw, List.mem_cons_of_mem t hr, by simp, by simp⟩
  | runlock t =>
    have htne : t ≠ tid := fun h => hne (by rw [h])
    simp only [lockStep] at hstep
    split at hstep
    · obtain rfl := Option.some.injEq .. ▸ hstep.symm
      exact ⟨rfl, hw, List.mem_erase_of_ne (fun h => htne h.symm) |>.mpr hr,
        by simp, by simp⟩
    · exact absurd hstep (by simp)
  | readTables t v =>
    simp only [lockStep] at hstep
    split at hstep
    · rename_i hcond
      obtain rfl := Option.some.injEq .. ▸ hstep.symm
      refine ⟨rfl, hw, hr, ?_, by simp⟩
      intro t2 v2 hev
      cases hev
      exact hcond.2
    · exact absurd hstep (by simp)
  | readDatastores t v =>
    simp only [lockStep] at hstep
    split at hstep
    · rename_i hcond
      obtain rfl := Option.some.injEq .. ▸ hstep.symm
      refine ⟨rfl, hw, hr, by simp, ?_⟩
      intro t2 v2 hev
      cases hev
      exact hcond.2
    · exact absurd hstep (by simp)
  | wlock =>
    simp only [lockStep] at hstep
    split at hstep
    · exact absurd hstep (by simp)
    · rename_i hcond
      exact absurd (Or.inr (List.ne_nil_of_mem hr)) hcond
  | swapConfig cfg =>
    simp only [lockStep] at hstep
    split at hstep
    · rename_i hcond
      rw [hw] at hcond
      exact absurd hcond (by simp)
    · exact absurd hstep (by simp)
  | wunlock =>
    simp only [lockStep] at hstep
    split at hstep
    · rename_i hcond
      rw [hw] at hcond
      exact absurd hcond (by simp)
    · exact absurd hstep (by simp)

/-- While a thread holds the read lock and the trace never releases it, the
whole trace leaves the config cell untouched and every read event in it (by
any thread) observes the cell as it was when the trace began. -/
theorem lockRun_reader_stable (evs : List LockEvent) :
    ∀ (s s₂ : LockState) (tid : Nat),
    lockRun s evs = some s₂ → s.writerHeld = false → tid ∈ s.readerIds →
    LockEvent.runlock tid ∉ evs →
    s₂.cell = s.cell ∧
    (∀ t2 v, LockEvent.readTables t2 v ∈ evs → v = s.cell.tables) ∧
    (∀ t2 v, LockEvent.readDatastores t2 v ∈ evs → v = s.cell.datastores) := by
  induction evs with
  | nil =>
    intro s s₂ tid hrun _ _ _
    simp only [lockRun, Option.some.injEq] at hrun
    subst hrun
    exact ⟨rfl, by simp, by simp⟩
  | cons e evs ih =>
    intro s s₂ tid hrun hw hr hnot
    have hne : e ≠ LockEvent.runlock tid := fun h =>
      hnot (h ▸ List.mem_cons_self e evs)
    have hnot2 : LockEvent.runlock tid ∉ evs := fun h =>
      hnot (List.mem_cons_of_mem e h)
    simp only [lockRun] at hrun
    cases hstep : lockStep s e with
    | none => rw [hstep] at hrun; exact absurd hrun (by simp)
    | some s1 =>
      rw [hstep] at hrun
      obtain ⟨hcell1, hw1, hr1, hrt1, hrd1⟩ :=
        lockStep_reader_stable s s1 e tid hstep hw hr hne
      obtain ⟨hcell2, hrt2, hrd2⟩ := ih s1 s₂ tid hrun hw1 hr1 hnot2
      refine ⟨hcell2.trans hcell1, ?_, ?_⟩
      · intro t2 v hv
        rcases List.mem_cons.mp hv with hv | hv
        · exact hrt1 t2 v hv.symm
        · rw [hrt2 t2 v hv, hcell1]
      · intro t2 v hv
        rcases List.mem_cons.mp hv with hv | hv
        · exact hrd1 t2 v hv.symm
        · rw [hrd2 t2 v hv, hcell1]

/-- The `Fields` loop result is exactly the mapped-type fields, filtered and
tagged in input order. -/
theorem inferSchemaFields_eq (kvs : List (String × GoValue)) :
    inferSchemaFields kvs =
      (kvs.filter (fun kv => toParquetType kv.2 ≠ "UNKNOWN")).map
        (fun kv => fieldTag kv.1 (toParquetType kv.2)) := by
  induction kvs with
  | nil => rfl
  | cons kv rest ih =>
    obtain ⟨k, v⟩ := kv
    by_cases h : toParquetType v ≠ "UNKNOWN"
    · simp [inferSchemaFields, h, List.filter_cons, ih]
    · simp [inferSchemaFields, h, List.filter_cons, ih]

/-- Inversion of `searchHandler`: a fan-out is only reached with the table
extracted from the whole body, validated, found in the config, and its
datastores resolved in config order; the pushdown expression is the
`strings.Replace` rewrite of the body. -/
theorem searchHandler_execute_inv (cfg : MinSQLConfig) (body expr : Chars)
    (dsts : List DataStore)
    (h : searchHandler cfg body = .execute expr dsts) :
    ∃ tbl tinfo, getTableName body = .ok tbl ∧ validTableMatch tbl = true ∧
      cfg.tables.lookup tbl = some tinfo ∧
      resolveDatastores cfg tbl tinfo.datastores = .ok dsts ∧
      expr = searchExpression body tbl := by
  unfold searchHandler at h
  split at h
  · exact absurd h (by simp)
  · split at h
    · exact absurd h (by simp)
    · rename_i table hg
      split at h
      · exact absurd h (by simp)
      · rename_i hvalid
        split at h
        · exact absurd h (by simp)
        · rename_i tinfo hl
          split at h
          · exact absurd h (by simp)
          · rename_i ds hr
            obtain ⟨he, hd⟩ := SearchOutcome.execute.inj h
            subst hd
            exact ⟨table, tinfo, hg, by simpa using hvalid, hl, hr, he.symm⟩

/-! ## Sample data for concrete evaluations -/

/-- A first sample datastore record. -/
def dsInfo1 : DataStoreInfo :=
  { endpoint := "http://play1.example.net:9000", accessKey := "minio",
    secretKey := "minio123", bucket := "logbucket1", pfx := "p1" }

/-- A second sample datastore record. -/
def dsInfo2 : DataStoreInfo :=
  { endpoint := "https://play2.example.net:9000", accessKey := "minio",
    secretKey := "minio123", bucket := "logbucket2", pfx := "p2" }

/-- The work unit resolved from `dsInfo1`. -/
def ds1 : DataStore :=
  { endpoint := "http://play1.example.net:9000", bucket := "logbucket1",
    pfx := "p1" }

/-- The work unit resolved from `dsInfo2`. -/
def ds2 : DataStore :=
  { endpoint := "https://play2.example.net:9000", bucket := "logbucket2",
    pfx := "p2" }

/-- A sample table spanning both datastores. -/
def tinfoApplogs : TableInfo :=
  { datastores := ["d1", "d2"], outputRecordDelimiter := "\n" }

/-- A sample config with one table over two datastores. -/
def cfgSample : MinSQLConfig :=
  { version := "1", datastores := [("d1", dsInfo1), ("d2", dsInfo2)],
    tables := [("applogs", tinfoApplogs)] }

/-- A config naming a table over one datastore. -/
def cfgMy : MinSQLConfig :=
  { version := "1", datastores := [("d1", dsInfo1)],
    tables := [("mytable", { datastores := ["d1"],
                             outputRecordDelimiter := "\n" })] }

/-- A persisted config whose only table name `x` fails the grammar (the
regex requires at least two characters). -/
def cfgBadTable : MinSQLConfig :=
  { version := "1", datastores := [],
    tables := [("x", { datastores := ["d1"], outputRecordDelimiter := "\n" })] }

/-- An initial lock-model state holding the sample config, no writer, no
readers. -/
def lockInit : LockState :=
  { cell := cfgSample, writerHeld := false, readerIds := [] }

/-! ## Claims -/

/-- Claim C1 is false on the code: for the table name `mytable`, which
passes the identifier grammar but is absent from the config, the ingest
front end answers HTTP 404 (`table not found`, api-handlers.go:262-265)
instead of accepting the request with HTTP 200 and silently discarding it. -/
theorem c1_counterexample :
    validTableMatch "mytable" = true ∧
    initConfig.tables.lookup "mytable" = none ∧
    logIngestCheck initConfig "mytable" = .notFound ∧
    ingestStatus (logIngestCheck initConfig "mytable") ≠ 200 := by
  decide

/-- Claim C1 (amended): an ingestion request whose table name passes the
identifier grammar but is not present in the current config is rejected
with HTTP 404 `table not found`; nothing is persisted. -/
theorem c1_amended (cfg : MinSQLConfig) (table : String)
    (hvalid : validTableMatch table = true)
    (hmiss : cfg.tables.lookup table = none) :
    logIngestCheck cfg table = .notFound ∧
    ingestStatus (logIngestCheck cfg table) = 404 := by
  unfold logIngestCheck
  rw [hvalid, hmiss]
  exact ⟨rfl, rfl⟩

/-- Witness for the amended C1 at the concrete table `mytable` and the
empty config. -/
theorem c1_amended_witness :
    logIngestCheck initConfig "mytable" = .notFound ∧
    ingestStatus (logIngestCheck initConfig "mytable") = 404 :=
  c1_amended initConfig "mytable" (by decide) (by decide)

/-- Claim C2 names a code bug: on an `s3:ObjectCreated` notification whose
persisted config fails the table-name grammar, `readMinSQLConfig` errors,
and the multi-assignment `a.config, err = readMinSQLConfig(...)`
(api-handlers.go:382) overwrites the shared config pointer with the
function's `nil` result before the error check; the watcher then logs and
returns.  The previous snapshot (`cfgSample` here) is not retained. -/
theorem c2_bug_eval :
    (∃ e, readMinSQLConfig (.ok cfgBadTable) = .error e) ∧
    processNotification { config := some cfgSample, stopped := false }
        .objectCreated (readMinSQLConfig (.ok cfgBadTable)) (.ok initConfig) =
      { config := none, stopped := true } ∧
    (none : Option MinSQLConfig) ≠ some cfgSample := by
  refine ⟨⟨_, rfl⟩, by decide, by decide⟩

/-- Claim C8 is false on the code: `SearchHandler` hands the whole body to
the parser without splitting on `;`.  For a body holding two
semicolon-separated statements the request is rejected with 400 (the token
after `from`, `applogs;`, fails table validation) and zero statements are
executed, rather than the two statements running in sequence. -/
theorem c8_counterexample :
    (semicolonSplit "select a from applogs; select b from applogs".data).length
      = 2 ∧
    searchHandler cfgSample
        "select a from applogs; select b from applogs".data =
      .badRequest ("applogs;" ++ " table name invalid") ∧
    searchStatements cfgSample
        "select a from applogs; select b from applogs".data = [] := by
  decide

/-- Claim C8 (amended): the handler never splits the body on semicolons;
the entire body is treated as one statement, so at most one statement
execution (one fan-out) occurs per search request. -/
theorem c8_amended (cfg : MinSQLConfig) (body : Chars) :
    (searchStatements cfg body).length ≤ 1 := by
  unfold searchStatements
  cases searchHandler cfg body <;> simp

/-- Claim C10: the shuffle returns a permutation of its input — for every
random source and every input list (empty and singleton included), the
multiset of elements is preserved. -/
theorem c10_shuffle_perm (r : Nat → Nat) (l : List DataStore) :
    (shuffle r l).Perm l ∧ (↑(shuffle r l) : Multiset DataStore) = ↑l := by
  have h := shuffleSteps_perm r l.length l
  exact ⟨h, Multiset.coe_eq_coe.mpr h⟩

/-- Claim C3: `GetTableName` fails on the empty statement; on every valid
single-table `SELECT` — a `SELECT` keyword, a nonempty projection free of
the `FROM` keyword, then `FROM` and the table token, all matched
case-insensitively over whitespace-separated tokens — it returns the
identifier immediately following `FROM`; and conversely it succeeds only on
inputs of exactly that shape, so every other input fails with an error. -/
theorem c3_get_table_name :
    (getTableName [] = .error "sql statement cannot be empty") ∧
    (∀ (s sel : Chars) (proj : List Chars) (ftok tbl : Chars)
      (rest : List Chars),
      words s = sel :: (proj ++ ftok :: tbl :: rest) →
      lowerTok sel = selectKW →
      proj ≠ [] →
      (∀ t ∈ proj, lowerTok t ≠ fromKW) →
      lowerTok ftok = fromKW →
      getTableName s = .ok (String.mk tbl)) ∧
    (∀ (s : Chars) (tblStr : String), getTableName s = .ok tblStr →
      s ≠ [] ∧ ∃ sel proj ftok tbl rest,
        words s = sel :: (proj ++ ftok :: tbl :: rest) ∧
        lowerTok sel = selectKW ∧ proj ≠ [] ∧
        (∀ t ∈ proj, lowerTok t ≠ fromKW) ∧ lowerTok ftok = fromKW ∧
        tblStr = String.mk tbl) := by
  refine ⟨rfl, ?_, ?_⟩
  case refine_2 =>
    intro s tblStr h
    unfold getTableName at h
    split at h
    · exact absurd h (by simp)
    · rename_i hne
      refine ⟨by simpa using hne, ?_⟩
      obtain ⟨sel, proj, ftok, tbl, rest, hts, hsel, hproj, hnf, hf, htbl⟩ :=
        extractTable_ok_inv (words s) tblStr h
      exact ⟨sel, proj, ftok, tbl, rest, hts, hsel, hproj, hnf, hf, htbl⟩
  intro s sel proj ftok tbl rest hw hsel hproj hnf hf
  obtain ⟨p, ps, rfl⟩ : ∃ p ps, proj = p :: ps := by
    cases proj with
    | nil => exact absurd rfl hproj
    | cons p ps => exact ⟨p, ps, rfl⟩
  have hp : lowerTok p ≠ fromKW := hnf p (List.mem_cons_self _ _)
  have hs : s.isEmpty = false := by
    cases s with
    | nil => simp [words, wordsAux] at hw
    | cons c cs => rfl
  unfold getTableName
  rw [hs, hw]
  simp only [Bool.false_eq_true, if_false, extractTableFromTokens,
    List.cons_append, hsel, ne_eq, not_true_eq_false, if_false, hp,
    not_false_eq_true, if_true]
  exact tableAfterFrom_append (p :: ps) ftok tbl rest hnf hf

/-- Witness for C3: the success direction at a concrete mixed-case
statement, and the inversion direction at a concrete accepted input. -/
theorem c3_witness :
    (getTableName "SELECT a, b FROM MyTable9 WHERE x > 1".data =
      .ok "MyTable9") ∧
    ("select col from applogs".data ≠ [] ∧ ∃ sel proj ftok tbl rest,
      words "select col from applogs".data =
        sel :: (proj ++ ftok :: tbl :: rest) ∧
      lowerTok sel = selectKW ∧ proj ≠ [] ∧
      (∀ t ∈ proj, lowerTok t ≠ fromKW) ∧ lowerTok ftok = fromKW ∧
      ("applogs" : String) = String.mk tbl) :=
  ⟨c3_get_table_name.2.1 "SELECT a, b FROM MyTable9 WHERE x > 1".data
    "SELECT".data ["a,".data, "b".data] "FROM".data "MyTable9".data
    ["WHERE".data, "x".data, ">".data, "1".data]
    (by decide) (by decide) (by decide) (by decide) (by decide),
   c3_get_table_name.2.2 "select col from applogs".data "applogs" rfl⟩

/-- Claim C4 is false on the code: the rewrite at api-handlers.go:456 is a
case-sensitive literal replacement of `"from " + table`.  For the accepted
query `SELECT s.a FROM mytable` (uppercase `FROM`) the handler reaches the
fan-out with the body pushed down completely unchanged — the expression
still names `mytable` and contains no `s3object`, so the table identifier
was not substituted by the generic source name. -/
theorem c4_counterexample :
    searchHandler cfgMy "SELECT s.a FROM mytable".data =
      .execute "SELECT s.a FROM mytable".data [ds1] ∧
    containsSub "s3object".data "SELECT s.a FROM mytable".data = false ∧
    containsSub "mytable".data "SELECT s.a FROM mytable".data = true := by
  decide

/-- Claim C4 (amended): the expression pushed down — computed once, the same
for every candidate object — is the input statement with every literal
occurrence of the substring `from <table>` (lowercase `from`, the table in
its extracted spelling) replaced by `from s3object`; a statement containing
no such literal occurrence (for example one writing `FROM` in upper case)
is pushed down unchanged. -/
theorem c4_amended :
    (∀ (cfg : MinSQLConfig) (body expr : Chars) (dsts : List DataStore),
      searchHandler cfg body = .execute expr dsts →
      ∃ tbl, getTableName body = .ok tbl ∧
        expr = replaceAll ("from ".data ++ tbl.data)
          "from s3object".data body) ∧
    (∀ (body : Chars) (tbl : String),
      containsSub ("from ".data ++ tbl.data) body = false →
      searchExpression body tbl = body) := by
  constructor
  · intro cfg body expr dsts h
    obtain ⟨tbl, tinfo, hg, _, _, _, he⟩ :=
      searchHandler_execute_inv cfg body expr dsts h
    exact ⟨tbl, hg, he⟩
  · intro body tbl hno
    exact replaceAll_id _ _ body hno

/-- Witness for the amended C4: a lowercase query is rewritten to name
`s3object`, and a query with no literal lowercase occurrence passes through
unchanged. -/
theorem c4_amended_witness :
    (∃ tbl, getTableName "select s.a from applogs".data = .ok tbl ∧
      ("select s.a from s3object".data : Chars) =
        replaceAll ("from ".data ++ tbl.data) "from s3object".data
          "select s.a from applogs".data) ∧
    searchExpression "SELECT 1 FROM b2".data "b2" = "SELECT 1 FROM b2".data :=
  ⟨c4_amended.1 cfgSample "select s.a from applogs".data
      "select s.a from s3object".data [ds1, ds2] (by decide),
   c4_amended.2 "SELECT 1 FROM b2".data "b2" (by decide)⟩

/-- Claim C5 is false on the code: `SearchHandler` distributes listing and
query work over the datastores exactly in resolved config order — `shuffle`
is never invoked on the search path (it serves only the ingest commit at
api-handlers.go:353).  The fan-out order `[ds1, ds2]` equals the resolution
order, while an admissible random draw would have produced `[ds2, ds1]`. -/
theorem c5_counterexample :
    searchHandler cfgSample "select s.a from applogs".data =
      .execute "select s.a from s3object".data [ds1, ds2] ∧
    resolveDatastores cfgSample "applogs" tinfoApplogs.datastores =
      .ok [ds1, ds2] ∧
    shuffle (fun _ => 0) [ds1, ds2] = [ds2, ds1] := by
  exact ⟨by decide, rfl, by decide⟩

/-- Claim C5 (amended): on every search request that reaches the fan-out,
the datastore work order is exactly the order resolved from the config
snapshot — no randomization is applied on the search path. -/
theorem c5_amended (cfg : MinSQLConfig) (body expr : Chars)
    (dsts : List DataStore)
    (h : searchHandler cfg body = .execute expr dsts) :
    ∃ tbl tinfo, getTableName body = .ok tbl ∧
      cfg.tables.lookup tbl = some tinfo ∧
      resolveDatastores cfg tbl tinfo.datastores = .ok dsts := by
  obtain ⟨tbl, tinfo, hg, _, hl, hr, _⟩ :=
    searchHandler_execute_inv cfg body expr dsts h
  exact ⟨tbl, tinfo, hg, hl, hr⟩

/-- Witness for the amended C5 at a concrete accepted query. -/
theorem c5_amended_witness :
    ∃ tbl tinfo, getTableName "select s.b from applogs".data = .ok tbl ∧
      cfgSample.tables.lookup tbl = some tinfo ∧
      resolveDatastores cfgSample tbl tinfo.datastores = .ok [ds1, ds2] :=
  c5_amended cfgSample "select s.b from applogs".data
    "select s.b from s3object".data [ds1, ds2] (by decide)

/-- Claim C6: every table name failing `^[a-zA-Z][a-zA-Z0-9-_]+$` is
rejected with an invalid-table-name 400 on both paths — the ingest front
end directly (api-handlers.go:254-257), and the search path whenever the
(size-admissible) body parses to that table name (api-handlers.go:441-444). -/
theorem c6_invalid_name_rejected (cfg : MinSQLConfig) (tbl : String)
    (body : Chars) (hinv : validTableMatch tbl = false) :
    logIngestCheck cfg tbl = .badRequestInvalidName ∧
    ingestStatus (logIngestCheck cfg tbl) = 400 ∧
    (body.length ≤ maxFormSize → getTableName body = .ok tbl →
      searchHandler cfg body = .badRequest (tbl ++ " table name invalid")) := by
  refine ⟨?_, ?_, ?_⟩
  · unfold logIngestCheck
    rw [hinv]
    rfl
  · unfold logIngestCheck
    rw [hinv]
    rfl
  · intro hlen hg
    unfold searchHandler
    rw [if_neg (by omega), hg]
    simp [hinv]

/-- Witness for C6 at the concrete invalid name `9bad`, reaching the
invalid-name 400 on both paths. -/
theorem c6_witness :
    validTableMatch "9bad" = false ∧
    logIngestCheck initConfig "9bad" = .badRequestInvalidName ∧
    searchHandler initConfig "select a from 9bad".data =
      .badRequest ("9bad" ++ " table name invalid") :=
  ⟨by decide,
   (c6_invalid_name_rejected initConfig "9bad" "select a from 9bad".data
      (by decide)).1,
   (c6_invalid_name_rejected initConfig "9bad" "select a from 9bad".data
      (by decide)).2.2 (by decide) rfl⟩

/-- Claim C7: schema inference from the first record never fails; every
field whose runtime type the switch maps to a column type contributes a
tagged column, the columns are exactly the mapped fields in input order,
and a type is unmapped (dropped) precisely when it falls outside the nine
listed arms. -/
theorem c7_schema_inference (kvs : List (String × GoValue)) (table : String) :
    ∃ sch, inferSchema kvs table = .ok sch ∧
      sch.tag = "name=" ++ table ∧
      sch.fields = (kvs.filter
          (fun kv => toParquetType kv.2 ≠ "UNKNOWN")).map
          (fun kv => fieldTag kv.1 (toParquetType kv.2)) ∧
      (∀ kv ∈ kvs, toParquetType kv.2 ≠ "UNKNOWN" →
        fieldTag kv.1 (toParquetType kv.2) ∈ sch.fields) ∧
      (∀ v : GoValue, toParquetType v = "UNKNOWN" ↔ ∃ g, v = .vother g) := by
  refine ⟨{ tag := "name=" ++ table, fields := inferSchemaFields kvs },
    rfl, rfl, inferSchemaFields_eq kvs, ?_, ?_⟩
  · intro kv hmem hmapped
    rw [inferSchemaFields_eq kvs]
    exact List.mem_map.mpr ⟨kv,
      List.mem_filter.mpr ⟨hmem, by simpa using hmapped⟩, rfl⟩
  · intro v
    cases v with
    | vother g => exact ⟨fun _ => ⟨g, rfl⟩, fun _ => rfl⟩
    | vstring => exact ⟨fun h => absurd h (by decide), fun ⟨g, h⟩ => by cases h⟩
    | vfloat32 => exact ⟨fun h => absurd h (by decide), fun ⟨g, h⟩ => by cases h⟩
    | vfloat64 => exact ⟨fun h => absurd h (by decide), fun ⟨g, h⟩ => by cases h⟩
    | vint32 => exact ⟨fun h => absurd h (by decide), fun ⟨g, h⟩ => by cases h⟩
    | vint64 => exact ⟨fun h => absurd h (by decide), fun ⟨g, h⟩ => by cases h⟩
    | vbool => exact ⟨fun h => absurd h (by decide), fun ⟨g, h⟩ => by cases h⟩
    | vbytes => exact ⟨fun h => absurd h (by decide), fun ⟨g, h⟩ => by cases h⟩
    | vlist => exact ⟨fun h => absurd h (by decide), fun ⟨g, h⟩ => by cases h⟩
    | vmap => exact ⟨fun h => absurd h (by decide), fun ⟨g, h⟩ => by cases h⟩

/-- Witness for C7 at a concrete first record mixing mapped and unmapped
field types. -/
theorem c7_witness :
    ∃ sch, inferSchema
        [("msg", GoValue.vstring), ("size", GoValue.vint64),
         ("extra", GoValue.vother "uint"), ("seen", GoValue.vbool)]
        "applogs" = .ok sch ∧
      sch.tag = "name=" ++ "applogs" ∧
      sch.fields = ([("msg", GoValue.vstring), ("size", GoValue.vint64),
          ("extra", GoValue.vother "uint"), ("seen", GoValue.vbool)].filter
          (fun kv => toParquetType kv.2 ≠ "UNKNOWN")).map
          (fun kv => fieldTag kv.1 (toParquetType kv.2)) ∧
      (∀ kv ∈ [("msg", GoValue.vstring), ("size", GoValue.vint64),
          ("extra", GoValue.vother "uint"), ("seen", GoValue.vbool)],
        toParquetType kv.2 ≠ "UNKNOWN" →
        fieldTag kv.1 (toParquetType kv.2) ∈ sch.fields) ∧
      (∀ v : GoValue, toParquetType v = "UNKNOWN" ↔ ∃ g, v = .vother g) :=
  c7_schema_inference
    [("msg", GoValue.vstring), ("size", GoValue.vint64),
     ("extra", GoValue.vother "uint"), ("seen", GoValue.vbool)] "applogs"

/-- Claim C9: the config swap is atomic with respect to readers.  In the
RWMutex transition system, once a reader has acquired the read lock (no
writer holding it) and until it releases, every field it reads comes from
the single snapshot that was current at acquisition — fully the old or
fully the new config, never a mix. -/
theorem c9_swap_atomicity (s₀ : LockState) (tid : Nat)
    (evs : List LockEvent) (s₁ : LockState)
    (t : List (String × TableInfo)) (d : List (String × DataStoreInfo))
    (hw : s₀.writerHeld = false)
    (hrun : lockRun s₀ (LockEvent.rlock tid :: evs) = some s₁)
    (hnorel : LockEvent.runlock tid ∉ evs)
    (hrt : LockEvent.readTables tid t ∈ evs)
    (hrd : LockEvent.readDatastores tid d ∈ evs) :
    t = s₀.cell.tables ∧ d = s₀.cell.datastores := by
  simp only [lockRun] at hrun
  cases hstep : lockStep s₀ (LockEvent.rlock tid) with
  | none => rw [hstep] at hrun; exact absurd hrun (by simp)
  | some s2 =>
    rw [hstep] at hrun
    have h2 : s2 = { s₀ with readerIds := tid :: s₀.readerIds } := by
      simp only [lockStep] at hstep
      split at hstep
      · exact absurd hstep (by simp)
      · exact (Option.some.inj hstep).symm
    subst h2
    obtain ⟨_, hT, hD⟩ := lockRun_reader_stable evs _ s₁ tid hrun hw
      (List.mem_cons_self _ _) hnorel
    exact ⟨hT tid t hrt, hD tid d hrd⟩

/-- Witness for C9: a concrete reader session over the sample config. -/
theorem c9_witness :
    cfgSample.tables = lockInit.cell.tables ∧
    cfgSample.datastores = lockInit.cell.datastores :=
  c9_swap_atomicity lockInit 7
    [LockEvent.readTables 7 cfgSample.tables,
     LockEvent.readDatastores 7 cfgSample.datastores]
    { cell := cfgSample, writerHeld := false, readerIds := [7] }
    cfgSample.tables cfgSample.datastores
    rfl (by decide) (by decide) (by decide) (by decide)

end MinSQL
